import Mathlib

/-!
Verification of the statistical-estimation pipeline of the NAMD BAR-FEP
analysis script (`BAR-FEP_NAMD_parser.py`).

The development shallowly embeds the two core functions of the script:

* `ParseFEP` — the two-phase stateful scan that turns one direction's
  concatenated `.fepout` stream into per-window sample series
  (source lines 82–151); and
* `DoBAR` — the pairwise Bennett-acceptance-ratio stage: per-window
  decorrelation, forward-ascending/reverse-descending window pairing,
  per-pair estimation, prefix-sum accumulation of ΔG, and
  root-sum-of-squares propagation of the standard deviations
  (source lines 154–237).

Machine floats of the source are embedded as exact arithmetic: ℚ for the
sample values and estimator outputs, ℝ (with `Real.sqrt`) for the
uncertainty propagation, which is the only place the source takes a
square root.  The external collaborators (`pymbar.timeseries` and the
`BAR` estimator) are injected as explicit parameters, mirroring the
script's use of them as black boxes.
-/

set_option autoImplicit false

namespace BarFep

/-- A whitespace-separated token of one line of a `.fepout` stream.
`mFree` stands for the window-summary marker token `#Free`, `mStarting`
for the collection-start marker token `#STARTING`; `num q` is a token
that Python's `float` parses to the value `q`, and `other s` is any
remaining (non-numeric, non-marker) token. -/
inductive Tok where
  | mFree : Tok
  | mStarting : Tok
  | num : ℚ → Tok
  | other : String → Tok
deriving DecidableEq, Repr

/-- `float(tok)`: the numeric reading of a token, `none` when Python's
`float` would raise `ValueError`. -/
def toQ : Tok → Option ℚ
  | Tok.num q => some q
  | _ => none

/-- `float(l[k])` — column `k` of a tokenized line; fails like the Python
expression does when the column is missing (`IndexError`) or non-numeric
(`ValueError`). -/
def col (l : List Tok) (k : ℕ) : Except String ℚ :=
  match l.get? k with
  | some t =>
    match toQ t with
    | some q => Except.ok q
    | none => Except.error "ValueError: could not convert string to float"
  | none => Except.error "IndexError: list index out of range"

/-- The mutable state of `ParseFEP`'s scan loop (source lines 101–111).
The five output dictionaries are keyed by the running window counter
`i = 0, 1, 2, …`, i.e. by consecutive integers starting at 0, so each is
embedded as a list whose position `i` is the dictionary entry at key `i`;
the counter `i` itself is the common length of the five lists. -/
structure PState where
  dEs : List (List ℚ)
  dGs : List (List ℚ)
  elecs : List (List ℚ)
  vdws : List (List ℚ)
  window : List (List Tok)
  tempDE : List ℚ
  tempDG : List ℚ
  tempElec : List ℚ
  tempVdw : List ℚ
  parsing : Bool
deriving DecidableEq, Repr

/-- The state at the top of `ParseFEP` (source lines 101–111): all
dictionaries and accumulation buffers empty, collection off. -/
def initState : PState :=
  ⟨[], [], [], [], [], [], [], [], [], false⟩

/-- One iteration of `ParseFEP`'s `for line in data` loop
(source lines 118–149), in the source's order: first the `'#Free' in l`
seal branch, then the `if parsing` sample-collection branch, then the
`'#STARTING' in l` branch that switches collection on. -/
def stepLine (s : PState) (l : List Tok) : Except String PState :=
  let s1 : PState :=
    if Tok.mFree ∈ l then
      { dEs := s.dEs ++ [s.tempDE]
        dGs := s.dGs ++ [s.tempDG]
        elecs := s.elecs ++ [s.tempElec]
        vdws := s.vdws ++ [s.tempVdw]
        window := s.window ++ [(l.drop 6).take 4]
        tempDE := []
        tempDG := []
        tempElec := []
        tempVdw := []
        parsing := false }
    else s
  match s1.parsing with
  | true =>
    match col l 6 with
    | Except.error e => Except.error e
    | Except.ok dE =>
      match col l 9 with
      | Except.error e => Except.error e
      | Except.ok dG =>
        match col l 3 with
        | Except.error e => Except.error e
        | Except.ok e3 =>
          match col l 2 with
          | Except.error e => Except.error e
          | Except.ok e2 =>
            match col l 5 with
            | Except.error e => Except.error e
            | Except.ok v5 =>
              match col l 4 with
              | Except.error e => Except.error e
              | Except.ok v4 =>
                let s2 : PState :=
                  { s1 with
                    tempDE := s1.tempDE ++ [dE]
                    tempDG := s1.tempDG ++ [dG]
                    tempElec := s1.tempElec ++ [e3 - e2]
                    tempVdw := s1.tempVdw ++ [v5 - v4] }
                Except.ok (if Tok.mStarting ∈ l then { s2 with parsing := true } else s2)
  | false =>
    Except.ok (if Tok.mStarting ∈ l then { s1 with parsing := true } else s1)

/-- Run the scan over the remaining lines from a given state. -/
def runLines : PState → List (List Tok) → Except String PState
  | s, [] => Except.ok s
  | s, l :: rest =>
    match stepLine s l with
    | Except.error e => Except.error e
    | Except.ok s' => runLines s' rest

/-- `ParseFEP` (source lines 82–151): scan the tokenized lines of a
summary `.fepout` stream and return the five per-window mappings
`(dEs_dict, dGs_dict, elecs_dict, vdws_dict, window)`.  The accumulation
buffers still holding samples at end of stream are discarded, exactly as
the source's `return` discards its `temp*` lists. -/
def ParseFEP (data : List (List Tok)) :
    Except String (List (List ℚ) × List (List ℚ) × List (List ℚ) × List (List ℚ) × List (List Tok)) :=
  match runLines initState data with
  | Except.error e => Except.error e
  | Except.ok s => Except.ok (s.dEs, s.dGs, s.elecs, s.vdws, s.window)

/-- The decorrelation collaborator interface (`pymbar.timeseries`, used
as a black box at source lines 186–198): `inefficiency` is
`timeseries.statisticalInefficiency` and may fail, `subsampleIndices` is
`timeseries.subsampleCorrelatedData`. -/
structure Decor where
  inefficiency : List ℚ → Except String ℚ
  subsampleIndices : List ℚ → ℚ → List ℕ

/-- The bidirectional estimator collaborator (`pymbar.BAR`, source line
203): from a forward and a reverse decorrelated series it produces the
pair `(ΔG, σ)`. -/
def Estimator : Type := List ℚ → List ℚ → ℚ × ℚ

/-- Numpy fancy indexing `value[indices]` (source lines 190 and 198):
pick out the listed positions, failing like numpy does on an
out-of-range index. -/
def npExtract (value : List ℚ) : List ℕ → Except String (List ℚ)
  | [] => Except.ok []
  | j :: rest =>
    match value.get? j with
    | some x =>
      match npExtract value rest with
      | Except.error e => Except.error e
      | Except.ok xs => Except.ok (x :: xs)
    | none => Except.error "IndexError: index out of bounds"

/-- The body of one decorrelation iteration (source lines 186–190 and
194–198): compute the statistical inefficiency `g` of the series, the
indices of the uncorrelated subseries, and extract those samples. -/
def subsampleOne (decor : Decor) (value : List ℚ) : Except String (List ℚ) :=
  match decor.inefficiency value with
  | Except.error e => Except.error e
  | Except.ok g => npExtract value (decor.subsampleIndices value g)

/-- The forward decorrelation loop `for key, value in fwds.items()`
(source lines 184–190), with the dictionary keyed `0..N−1` embedded as a
list: subsample every window's forward series in key order.  (The loop
also records `corr_time[key] = [g]`; that table is only read back by the
reverse loop's key lookup and by verbose printing, so it is embedded as
the bound carried by `revPass`.) -/
def fwdPass (decor : Decor) : List (List ℚ) → Except String (List (List ℚ))
  | [] => Except.ok []
  | v :: rest =>
    match subsampleOne decor v with
    | Except.error e => Except.error e
    | Except.ok w =>
      match fwdPass decor rest with
      | Except.error e => Except.error e
      | Except.ok ws => Except.ok (w :: ws)

/-- The reverse decorrelation loop `for key, value in revs.items()`
(source lines 192–198).  `m` is the forward window count, `k` the current
reverse key.  After computing `g` for a window, the source executes
`corr_time[key].append(g)`, which raises `KeyError` when the reverse key
`k` is not among the forward keys `0..m−1`; only then does it subsample. -/
def revPass (decor : Decor) (m : ℕ) : ℕ → List (List ℚ) → Except String (List (List ℚ))
  | _, [] => Except.ok []
  | k, v :: rest =>
    match decor.inefficiency v with
    | Except.error e => Except.error e
    | Except.ok g =>
      if k < m then
        match npExtract v (decor.subsampleIndices v g) with
        | Except.error e => Except.error e
        | Except.ok w =>
          match revPass decor m (k + 1) rest with
          | Except.error e => Except.error e
          | Except.ok ws => Except.ok (w :: ws)
      else Except.error "KeyError: reverse window key missing from corr_time"

/-- The key pairs produced by
`zip(sorted(fwd_ss.keys()), sorted(list(rev_ss.keys()), reverse=True))`
(source line 202): the forward keys `0..m−1` ascending zipped with the
reverse keys `0..n−1` descending, truncated to the shorter of the two. -/
def pairKeys (m n : ℕ) : List (ℕ × ℕ) :=
  List.zip (List.range m) (List.range n).reverse

/-- The arrays mutated by the estimator loop (source lines 176–177 and
200–204), plus the trace of the estimator invocations the loop makes:
`calls` records, in loop order, each `BAR(fwd_ss[kF], rev_ss[kR])`
invocation as `(kF, kR, fwd_ss[kF], rev_ss[kR])`. -/
structure BarOut where
  dg_bar : List ℚ
  gsd_bar : List ℚ
  calls : List (ℕ × ℕ × List ℚ × List ℚ)
deriving DecidableEq, Repr

/-- One iteration of the estimator loop (source lines 202–204):
`dg_bar[kF], gsd_bar[kF] = BAR(fwd_ss[kF], rev_ss[kR])`. -/
def loopStep (E : Estimator) (fwd_ss rev_ss : List (List ℚ)) (st : BarOut) (p : ℕ × ℕ) :
    BarOut :=
  let f := fwd_ss.getD p.1 []
  let r := rev_ss.getD p.2 []
  let e := E f r
  { dg_bar := st.dg_bar.set p.1 e.1
    gsd_bar := st.gsd_bar.set p.1 e.2
    calls := st.calls ++ [(p.1, p.2, f, r)] }

/-- The estimator loop of `DoBAR` (source lines 176–177 and 200–204):
starting from the zero-filled arrays of length `len(fwds)`, run
`loopStep` over the zipped key pairs. -/
def barLoop (E : Estimator) (m : ℕ) (fwd_ss rev_ss : List (List ℚ)) : BarOut :=
  (pairKeys fwd_ss.length rev_ss.length).foldl (loopStep E fwd_ss rev_ss)
    ⟨List.replicate m 0, List.replicate m 0, []⟩

/-- The accumulation loop for the cumulative ΔG profile (source lines
209–214): `net` starts at `0`; `dgs[i] = dg_bar[i] + net; net = dgs[i]`. -/
def dgsAccum : ℚ → List ℚ → List ℚ
  | _, [] => []
  | net, d :: rest => (d + net) :: dgsAccum (d + net) rest

/-- The estimation pipeline of `DoBAR` (source lines 174–214) up to the
quantities that stay in exact rational arithmetic: decorrelate the
forward and reverse series, run the estimator loop over the reversed
pairing, and accumulate the cumulative ΔG profile.  Returns the profile
together with the loop's arrays and call trace. -/
def DoBARrun (decor : Decor) (E : Estimator) (fwds revs : List (List ℚ)) :
    Except String (List ℚ × BarOut) :=
  match fwdPass decor fwds with
  | Except.error e => Except.error e
  | Except.ok fwd_ss =>
    match revPass decor fwds.length 0 revs with
    | Except.error e => Except.error e
    | Except.ok rev_ss =>
      let out := barLoop E fwds.length fwd_ss rev_ss
      Except.ok (dgsAccum 0 out.dg_bar, out)

/-- The standard-deviation combination loop (source lines 210–217):
`netsd` starts at `0`; `gsdlist[i] = (gsd_bar[i]**2 + netsd**2)**0.5;
netsd = gsdlist[i]`.  The argument is both non-negative, so `**0.5` is
the real square root. -/
noncomputable def gsdAccum : ℝ → List ℝ → List ℝ
  | _, [] => []
  | netsd, s :: rest =>
    let g := Real.sqrt (s ^ 2 + netsd ^ 2)
    g :: gsdAccum g rest

/-- The cumulative uncertainty profile `gsdlist` of `DoBAR` (source
lines 210–217), as a function of the per-window standard deviations
`gsd_bar`. -/
noncomputable def gsdlist (sds : List ℝ) : List ℝ :=
  gsdAccum 0 sds

/-- The net standard deviation `gsd = (np.sum(np.power(gsd_bar, 2)))**0.5`
(source line 207), printed in the summary line. -/
noncomputable def gsd (sds : List ℝ) : ℝ :=
  Real.sqrt (sds.map (fun s => s ^ 2)).sum

/-- `DoBAR` (source lines 154–237): the full return value
`(dgs, gsdlist)` — the cumulative ΔG profile and the cumulative
uncertainty profile. -/
noncomputable def DoBAR (decor : Decor) (E : Estimator) (fwds revs : List (List ℚ)) :
    Except String (List ℚ × List ℝ) :=
  match DoBARrun decor E fwds revs with
  | Except.error e => Except.error e
  | Except.ok res => Except.ok (res.1, gsdlist (res.2.gsd_bar.map (fun q => (q : ℝ))))

/-- Modelled from the spec: `pymbar.timeseries.statisticalInefficiency`,
external to the repository (absent from `src/`).  Per §4.2 it returns a
scalar inefficiency `g ≥ 1` and is undefined on a series of fewer than 2
samples, where "the adapter must signal this rather than silently
returning the full (degenerate) series"; the model returns the minimal
valid inefficiency `g = 1` on valid input. -/
def shortSeriesMsg : String :=
  "ParameterError: cannot compute statistical inefficiency of fewer than 2 samples"

def pymbarInefficiency (series : List ℚ) : Except String ℚ :=
  if series.length < 2 then Except.error shortSeriesMsg
  else Except.ok 1

/-- Modelled from the spec: `pymbar.timeseries.subsampleCorrelatedData`,
external to the repository (absent from `src/`).  §6 specifies only the
interface `subsample_indices(series, g) -> indices`; with the modelled
inefficiency `g = 1` every sample is already uncorrelated, so the model
keeps all indices. -/
def pymbarSubsample (series : List ℚ) (_g : ℚ) : List ℕ :=
  List.range series.length

/-- The decorrelation collaborator as modelled from the spec. -/
def pymbarDecor : Decor :=
  ⟨pymbarInefficiency, pymbarSubsample⟩

/-- A trivial decorrelation stub for concrete runs: inefficiency 1,
keep every sample. -/
def stubDecor : Decor :=
  ⟨fun _ => Except.ok 1, fun v _ => List.range v.length⟩

/-- A deterministic estimator stub for concrete runs: `ΔG` is the sum of
the forward samples it received, `σ` the sum of the reverse samples. -/
def stubE : Estimator :=
  fun f r => (f.sum, r.sum)

/-! ### Lemmas about the sample parser -/

theorem stepLine_seal (s : PState) (l : List Tok) (hF : Tok.mFree ∈ l) :
    stepLine s l =
      Except.ok
        { dEs := s.dEs ++ [s.tempDE]
          dGs := s.dGs ++ [s.tempDG]
          elecs := s.elecs ++ [s.tempElec]
          vdws := s.vdws ++ [s.tempVdw]
          window := s.window ++ [(l.drop 6).take 4]
          tempDE := []
          tempDG := []
          tempElec := []
          tempVdw := []
          parsing := decide (Tok.mStarting ∈ l) } := by
  by_cases hS : Tok.mStarting ∈ l <;>
    simp [stepLine, hF, hS]

theorem stepLine_idle (s : PState) (l : List Tok) (hF : Tok.mFree ∉ l)
    (hp : s.parsing = false) :
    stepLine s l = Except.ok { s with parsing := decide (Tok.mStarting ∈ l) } := by
  by_cases hS : Tok.mStarting ∈ l <;>
    · cases s
      simp_all [stepLine]

theorem stepLine_collect (s : PState) (l : List Tok) (hF : Tok.mFree ∉ l)
    (hp : s.parsing = true) (q2 q3 q4 q5 q6 q9 : ℚ)
    (h2 : col l 2 = Except.ok q2) (h3 : col l 3 = Except.ok q3)
    (h4 : col l 4 = Except.ok q4) (h5 : col l 5 = Except.ok q5)
    (h6 : col l 6 = Except.ok q6) (h9 : col l 9 = Except.ok q9) :
    stepLine s l =
      Except.ok
        { s with
          tempDE := s.tempDE ++ [q6]
          tempDG := s.tempDG ++ [q9]
          tempElec := s.tempElec ++ [q3 - q2]
          tempVdw := s.tempVdw ++ [q5 - q4]
          parsing := true } := by
  by_cases hS : Tok.mStarting ∈ l <;>
    · cases s
      simp_all [stepLine, h2, h3, h4, h5, h6, h9]

theorem take_four_of_get? {α : Type} (xs : List α) (a b c d : α)
    (h0 : xs.get? 0 = some a) (h1 : xs.get? 1 = some b)
    (h2 : xs.get? 2 = some c) (h3 : xs.get? 3 = some d) :
    xs.take 4 = [a, b, c, d] := by
  match xs with
  | [] => simp at h0
  | [_] => simp at h1
  | [_, _] => simp at h2
  | [_, _, _] => simp at h3
  | x0 :: x1 :: x2 :: x3 :: rest =>
    simp only [List.get?] at h0 h1 h2 h3
    injection h0 with h0
    injection h1 with h1
    injection h2 with h2
    injection h3 with h3
    simp [h0, h1, h2, h3, List.take]

theorem stepLine_ok_dicts (s s' : PState) (l : List Tok) (hF : Tok.mFree ∉ l)
    (h : stepLine s l = Except.ok s') :
    s'.dEs = s.dEs ∧ s'.dGs = s.dGs ∧ s'.elecs = s.elecs ∧ s'.vdws = s.vdws ∧
      s'.window = s.window := by
  simp only [stepLine, if_neg hF] at h
  split at h
  all_goals repeat' split at h
  all_goals first
    | exact Except.noConfusion h
    | (injection h with h
       subst h
       simp)

theorem stepLine_lengths (s s' : PState) (l : List Tok)
    (h : stepLine s l = Except.ok s') :
    s'.dEs.length = s.dEs.length + (if Tok.mFree ∈ l then 1 else 0) ∧
    s'.dGs.length = s.dGs.length + (if Tok.mFree ∈ l then 1 else 0) ∧
    s'.elecs.length = s.elecs.length + (if Tok.mFree ∈ l then 1 else 0) ∧
    s'.vdws.length = s.vdws.length + (if Tok.mFree ∈ l then 1 else 0) ∧
    s'.window.length = s.window.length + (if Tok.mFree ∈ l then 1 else 0) := by
  by_cases hF : Tok.mFree ∈ l
  · rw [stepLine_seal s l hF] at h
    injection h with h
    subst h
    simp [hF]
  · obtain ⟨e1, e2, e3, e4, e5⟩ := stepLine_ok_dicts s s' l hF h
    simp [hF, e1, e2, e3, e4, e5]

theorem runLines_lengths (data : List (List Tok)) :
    ∀ (s s' : PState), runLines s data = Except.ok s' →
      s'.dEs.length = s.dEs.length + data.countP (fun l => decide (Tok.mFree ∈ l)) ∧
      s'.dGs.length = s.dGs.length + data.countP (fun l => decide (Tok.mFree ∈ l)) ∧
      s'.elecs.length = s.elecs.length + data.countP (fun l => decide (Tok.mFree ∈ l)) ∧
      s'.vdws.length = s.vdws.length + data.countP (fun l => decide (Tok.mFree ∈ l)) ∧
      s'.window.length = s.window.length + data.countP (fun l => decide (Tok.mFree ∈ l)) := by
  induction data with
  | nil =>
    intro s s' h
    injection h with h
    subst h
    simp
  | cons l rest ih =>
    intro s s' h
    simp only [runLines] at h
    cases hstep : stepLine s l <;> rw [hstep] at h
    · exact absurd h (by simp)
    · rename_i s1
      obtain ⟨e1, e2, e3, e4, e5⟩ := stepLine_lengths s s1 l hstep
      obtain ⟨i1, i2, i3, i4, i5⟩ := ih s1 s' h
      rw [List.countP_cons]
      constructor
      · rw [i1, e1]; by_cases hF : Tok.mFree ∈ l <;> simp [hF] <;> omega
      constructor
      · rw [i2, e2]; by_cases hF : Tok.mFree ∈ l <;> simp [hF] <;> omega
      constructor
      · rw [i3, e3]; by_cases hF : Tok.mFree ∈ l <;> simp [hF] <;> omega
      constructor
      · rw [i4, e4]; by_cases hF : Tok.mFree ∈ l <;> simp [hF] <;> omega
      · rw [i5, e5]; by_cases hF : Tok.mFree ∈ l <;> simp [hF] <;> omega

theorem ParseFEP_ok_lengths (data : List (List Tok))
    (r : List (List ℚ) × List (List ℚ) × List (List ℚ) × List (List ℚ) × List (List Tok))
    (h : ParseFEP data = Except.ok r) :
    r.1.length = data.countP (fun l => decide (Tok.mFree ∈ l)) ∧
    r.2.1.length = data.countP (fun l => decide (Tok.mFree ∈ l)) ∧
    r.2.2.1.length = data.countP (fun l => decide (Tok.mFree ∈ l)) ∧
    r.2.2.2.1.length = data.countP (fun l => decide (Tok.mFree ∈ l)) ∧
    r.2.2.2.2.length = data.countP (fun l => decide (Tok.mFree ∈ l)) := by
  simp only [ParseFEP] at h
  cases hr : runLines initState data <;> rw [hr] at h
  · exact Except.noConfusion h
  · rename_i s
    obtain ⟨e1, e2, e3, e4, e5⟩ := runLines_lengths data initState s hr
    injection h with h
    subst h
    simp only [initState] at e1 e2 e3 e4 e5
    simp_all

/-! ### Lemmas about the decorrelation passes -/

theorem fwdPass_length (decor : Decor) :
    ∀ (vs ws : List (List ℚ)), fwdPass decor vs = Except.ok ws → ws.length = vs.length := by
  intro vs
  induction vs with
  | nil =>
    intro ws h
    injection h with h
    subst h
    rfl
  | cons v rest ih =>
    intro ws h
    simp only [fwdPass] at h
    cases h1 : subsampleOne decor v <;> rw [h1] at h
    · exact Except.noConfusion h
    · cases h2 : fwdPass decor rest <;> rw [h2] at h
      · exact Except.noConfusion h
      · injection h with h
        subst h
        simp [ih _ h2]

theorem fwdPass_get (decor : Decor) :
    ∀ (vs ws : List (List ℚ)), fwdPass decor vs = Except.ok ws →
      ∀ (j : ℕ) (v : List ℚ), vs.get? j = some v →
        ∃ w, subsampleOne decor v = Except.ok w ∧ ws.get? j = some w := by
  intro vs
  induction vs with
  | nil =>
    intro ws h j v hj
    simp at hj
  | cons v0 rest ih =>
    intro ws h j v hj
    simp only [fwdPass] at h
    cases h1 : subsampleOne decor v0 <;> rw [h1] at h
    · exact Except.noConfusion h
    · cases h2 : fwdPass decor rest <;> rw [h2] at h
      · exact Except.noConfusion h
      · injection h with h
        subst h
        cases j with
        | zero =>
          injection hj with hj
          subst hj
          exact ⟨_, h1, rfl⟩
        | succ j =>
          exact ih _ h2 j v hj

theorem revPass_length (decor : Decor) (m : ℕ) :
    ∀ (vs : List (List ℚ)) (k : ℕ) (ws : List (List ℚ)),
      revPass decor m k vs = Except.ok ws → ws.length = vs.length := by
  intro vs
  induction vs with
  | nil =>
    intro k ws h
    injection h with h
    subst h
    rfl
  | cons v rest ih =>
    intro k ws h
    simp only [revPass] at h
    cases h1 : decor.inefficiency v <;> simp only [h1] at h
    · exact Except.noConfusion h
    · rename_i g
      by_cases hk : k < m
      · rw [if_pos hk] at h
        cases h2 : npExtract v (decor.subsampleIndices v g) <;> rw [h2] at h
        · exact Except.noConfusion h
        · cases h3 : revPass decor m (k + 1) rest <;> rw [h3] at h
          · exact Except.noConfusion h
          · injection h with h
            subst h
            simp [ih (k + 1) _ h3]
      · rw [if_neg hk] at h
        exact Except.noConfusion h

theorem revPass_get (decor : Decor) (m : ℕ) :
    ∀ (vs : List (List ℚ)) (k : ℕ) (ws : List (List ℚ)),
      revPass decor m k vs = Except.ok ws →
      ∀ (j : ℕ) (v : List ℚ), vs.get? j = some v →
        ∃ w, subsampleOne decor v = Except.ok w ∧ ws.get? j = some w := by
  intro vs
  induction vs with
  | nil =>
    intro k ws h j v hj
    simp at hj
  | cons v0 rest ih =>
    intro k ws h j v hj
    simp only [revPass] at h
    cases h1 : decor.inefficiency v0 <;> simp only [h1] at h
    · exact Except.noConfusion h
    · rename_i g
      by_cases hk : k < m
      · rw [if_pos hk] at h
        cases h2 : npExtract v0 (decor.subsampleIndices v0 g) <;> rw [h2] at h
        · exact Except.noConfusion h
        · cases h3 : revPass decor m (k + 1) rest <;> rw [h3] at h
          · exact Except.noConfusion h
          · injection h with h
            subst h
            cases j with
            | zero =>
              injection hj with hj
              subst hj
              refine ⟨_, ?_, rfl⟩
              simp only [subsampleOne, h1]
              exact h2
            | succ j =>
              exact ih (k + 1) _ h3 j v hj
      · rw [if_neg hk] at h
        exact Except.noConfusion h

theorem npExtract_map_succ (a : List ℚ) (x : ℚ) :
    ∀ idx : List ℕ, npExtract (x :: a) (idx.map Nat.succ) = npExtract a idx := by
  intro idx
  induction idx with
  | nil => rfl
  | cons j rest ih =>
    simp only [List.map_cons, npExtract, List.get?]
    rw [ih]

theorem npExtract_range (v : List ℚ) :
    npExtract v (List.range v.length) = Except.ok v := by
  induction v with
  | nil => rfl
  | cons x rest ih =>
    rw [List.length_cons, List.range_succ_eq_map]
    simp only [npExtract, List.get?]
    rw [npExtract_map_succ rest x (List.range rest.length), ih]

theorem subsampleOne_pymbar (v : List ℚ) (hv : 2 ≤ v.length) :
    subsampleOne pymbarDecor v = Except.ok v := by
  simp only [subsampleOne, pymbarDecor, pymbarInefficiency, if_neg (by omega : ¬v.length < 2)]
  exact npExtract_range v

theorem fwdPass_pymbar (vs : List (List ℚ)) (hv : ∀ v ∈ vs, 2 ≤ v.length) :
    fwdPass pymbarDecor vs = Except.ok vs := by
  induction vs with
  | nil => rfl
  | cons v rest ih =>
    simp only [fwdPass]
    rw [subsampleOne_pymbar v (hv v (by simp)), ih (fun w hw => hv w (by simp [hw]))]

theorem revPass_pymbar (m : ℕ) :
    ∀ (vs : List (List ℚ)) (k : ℕ), k + vs.length ≤ m → (∀ v ∈ vs, 2 ≤ v.length) →
      revPass pymbarDecor m k vs = Except.ok vs := by
  intro vs
  induction vs with
  | nil => intro k _ _; rfl
  | cons v rest ih =>
    intro k hk hv
    have hlt : k < m := by
      simp only [List.length_cons] at hk
      omega
    have h2 : ¬v.length < 2 := by
      have := hv v (by simp)
      omega
    have hineff : pymbarDecor.inefficiency v = Except.ok 1 := by
      simp [pymbarDecor, pymbarInefficiency, h2]
    have hsub : pymbarDecor.subsampleIndices v 1 = List.range v.length := rfl
    simp only [revPass, hineff, hsub, if_pos hlt, npExtract_range v,
      ih (k + 1) (by simp only [List.length_cons] at hk; omega)
        (fun w hw => hv w (by simp [hw]))]

/-! ### Lemmas about the window pairing and the estimator loop -/

theorem pairKeys_length (m n : ℕ) : (pairKeys m n).length = min m n := by
  simp [pairKeys]

theorem pairKeys_get (m n i : ℕ) (h : i < min m n) :
    (pairKeys m n).get? i = some (i, n - 1 - i) := by
  have h1 : i < m := lt_of_lt_of_le h (min_le_left m n)
  have h2 : i < n := lt_of_lt_of_le h (min_le_right m n)
  refine (List.get?_zip_eq_some _ _ _ _).mpr ⟨?_, ?_⟩
  · exact List.get?_range h1
  · have hrev := List.get?_reverse (l := List.range n) (i := i) (by simpa using h2)
    rw [hrev, List.length_range]
    exact List.get?_range (by omega)

theorem pairKeys_self (m : ℕ) :
    pairKeys m m = (List.range m).map (fun i => (i, m - 1 - i)) := by
  apply List.ext_get?
  intro i
  by_cases h : i < m
  · rw [pairKeys_get m m i (by simp [h]), List.get?_map, List.get?_range h]
    rfl
  · rw [List.get?_eq_none.mpr, List.get?_eq_none.mpr]
    · simp
      omega
    · rw [pairKeys_length]
      omega

theorem pairKeys_drop_fst (m n i : ℕ) :
    ∀ q ∈ (pairKeys m n).drop (i + 1), i < q.1 := by
  intro q hq
  obtain ⟨j, hj⟩ := List.mem_iff_get?.mp hq
  rw [List.get?_drop] at hj
  have hlt : i + 1 + j < min m n := by
    by_contra hge
    rw [List.get?_eq_none.mpr (by rw [pairKeys_length]; omega)] at hj
    exact Option.noConfusion hj
  rw [pairKeys_get m n _ hlt] at hj
  injection hj with hj
  subst hj
  simp
  omega

theorem list_decomp_at {α : Type} (l : List α) (i : ℕ) (x : α) (h : l.get? i = some x) :
    l = l.take i ++ x :: l.drop (i + 1) := by
  obtain ⟨hlt, hget⟩ := List.get?_eq_some.mp h
  conv_lhs => rw [← List.take_append_drop i l]
  congr 1
  rw [List.drop_eq_getElem_cons hlt]
  rw [← List.get_eq_getElem l ⟨i, hlt⟩, hget]

theorem loopFold_calls (E : Estimator) (f r : List (List ℚ)) :
    ∀ (ps : List (ℕ × ℕ)) (st : BarOut),
      (ps.foldl (loopStep E f r) st).calls =
        st.calls ++ ps.map (fun p => (p.1, p.2, f.getD p.1 [], r.getD p.2 [])) := by
  intro ps
  induction ps with
  | nil => intro st; simp
  | cons p rest ih =>
    intro st
    rw [List.foldl_cons, ih]
    simp [loopStep]

theorem loopFold_lengths (E : Estimator) (f r : List (List ℚ)) :
    ∀ (ps : List (ℕ × ℕ)) (st : BarOut),
      (ps.foldl (loopStep E f r) st).dg_bar.length = st.dg_bar.length ∧
      (ps.foldl (loopStep E f r) st).gsd_bar.length = st.gsd_bar.length := by
  intro ps
  induction ps with
  | nil => intro st; exact ⟨rfl, rfl⟩
  | cons p rest ih =>
    intro st
    rw [List.foldl_cons]
    obtain ⟨ih1, ih2⟩ := ih (loopStep E f r st p)
    rw [ih1, ih2]
    simp [loopStep]

theorem loopFold_untouched (E : Estimator) (f r : List (List ℚ)) :
    ∀ (ps : List (ℕ × ℕ)) (st : BarOut) (i : ℕ), (∀ p ∈ ps, p.1 ≠ i) →
      (ps.foldl (loopStep E f r) st).dg_bar.get? i = st.dg_bar.get? i ∧
      (ps.foldl (loopStep E f r) st).gsd_bar.get? i = st.gsd_bar.get? i := by
  intro ps
  induction ps with
  | nil => intro st i _; exact ⟨rfl, rfl⟩
  | cons p rest ih =>
    intro st i hp
    rw [List.foldl_cons]
    have hne : p.1 ≠ i := hp p (by simp)
    obtain ⟨ih1, ih2⟩ := ih (loopStep E f r st p) i (fun q hq => hp q (by simp [hq]))
    rw [ih1, ih2]
    constructor <;>
      · simp only [loopStep]
        exact List.get?_set_ne _ _ hne

theorem loopFold_hit (E : Estimator) (f r : List (List ℚ)) (ps1 ps2 : List (ℕ × ℕ))
    (p : ℕ × ℕ) (st : BarOut) (hne : ∀ q ∈ ps2, q.1 ≠ p.1)
    (hlen1 : p.1 < st.dg_bar.length) (hlen2 : p.1 < st.gsd_bar.length) :
    ((ps1 ++ p :: ps2).foldl (loopStep E f r) st).dg_bar.get? p.1 =
      some (E (f.getD p.1 []) (r.getD p.2 [])).1 ∧
    ((ps1 ++ p :: ps2).foldl (loopStep E f r) st).gsd_bar.get? p.1 =
      some (E (f.getD p.1 []) (r.getD p.2 [])).2 := by
  rw [List.foldl_append, List.foldl_cons]
  obtain ⟨u1, u2⟩ :=
    loopFold_untouched E f r ps2 (loopStep E f r (ps1.foldl (loopStep E f r) st) p) p.1 hne
  rw [u1, u2]
  obtain ⟨l1, l2⟩ := loopFold_lengths E f r ps1 st
  constructor
  · simp only [loopStep]
    exact List.get?_set_eq_of_lt _ (by rw [l1]; exact hlen1)
  · simp only [loopStep]
    exact List.get?_set_eq_of_lt _ (by rw [l2]; exact hlen2)

theorem barLoop_lengths (E : Estimator) (m : ℕ) (f r : List (List ℚ)) :
    (barLoop E m f r).dg_bar.length = m ∧ (barLoop E m f r).gsd_bar.length = m := by
  obtain ⟨l1, l2⟩ :=
    loopFold_lengths E f r (pairKeys f.length r.length) ⟨List.replicate m 0, List.replicate m 0, []⟩
  exact ⟨by rw [barLoop, l1]; simp, by rw [barLoop, l2]; simp⟩

theorem barLoop_calls (E : Estimator) (m : ℕ) (f r : List (List ℚ)) :
    (barLoop E m f r).calls =
      (pairKeys f.length r.length).map (fun p => (p.1, p.2, f.getD p.1 [], r.getD p.2 [])) := by
  rw [barLoop, loopFold_calls]
  rfl

theorem barLoop_get (E : Estimator) (m : ℕ) (f r : List (List ℚ))
    (hf : f.length = m) (hr : r.length = m) (i : ℕ) (hi : i < m) :
    (barLoop E m f r).dg_bar.get? i = some (E (f.getD i []) (r.getD (m - 1 - i) [])).1 ∧
    (barLoop E m f r).gsd_bar.get? i = some (E (f.getD i []) (r.getD (m - 1 - i) [])).2 := by
  subst hr
  have hmin : i < min f.length r.length := by omega
  have hget : (pairKeys f.length r.length).get? i = some (i, r.length - 1 - i) :=
    pairKeys_get _ _ _ hmin
  have hdecomp := list_decomp_at _ _ _ hget
  have hne : ∀ q ∈ (pairKeys f.length r.length).drop (i + 1), q.1 ≠ (i, r.length - 1 - i).1 :=
    fun q hq => Nat.ne_of_gt (pairKeys_drop_fst f.length r.length i q hq)
  rw [barLoop, hdecomp]
  have := loopFold_hit E f r ((pairKeys f.length r.length).take i)
    ((pairKeys f.length r.length).drop (i + 1)) (i, r.length - 1 - i)
    ⟨List.replicate r.length 0, List.replicate r.length 0, []⟩ hne (by simp [hi]) (by simp [hi])
  simpa using this

/-! ### Lemmas about the two accumulation loops -/

theorem dgsAccum_length : ∀ (l : List ℚ) (c : ℚ), (dgsAccum c l).length = l.length := by
  intro l
  induction l with
  | nil => intro c; rfl
  | cons d rest ih =>
    intro c
    simp [dgsAccum, ih]

theorem dgsAccum_get : ∀ (l : List ℚ) (c : ℚ) (i : ℕ), i < l.length →
    (dgsAccum c l).get? i = some (c + (l.take (i + 1)).sum) := by
  intro l
  induction l with
  | nil =>
    intro c i h
    simp at h
  | cons d rest ih =>
    intro c i h
    cases i with
    | zero =>
      simp only [dgsAccum, List.get?, List.take, List.sum_cons, List.sum_nil]
      rw [show c + (d + 0) = d + c by ring]
    | succ i =>
      simp only [dgsAccum, List.get?]
      rw [ih (d + c) i (by simpa using h)]
      simp only [List.take, List.sum_cons]
      rw [show c + (d + (rest.take (i + 1)).sum) = d + c + (rest.take (i + 1)).sum by ring]

theorem gsdAccum_length : ∀ (l : List ℝ) (c : ℝ), (gsdAccum c l).length = l.length := by
  intro l
  induction l with
  | nil => intro c; rfl
  | cons s rest ih =>
    intro c
    simp [gsdAccum, ih]

theorem gsdAccum_getD : ∀ (l : List ℝ) (c : ℝ) (i : ℕ), i < l.length →
    (gsdAccum c l).getD i 0 =
      Real.sqrt ((l.getD i 0) ^ 2 +
        (if i = 0 then c else (gsdAccum c l).getD (i - 1) 0) ^ 2) := by
  intro l
  induction l with
  | nil =>
    intro c i h
    simp at h
  | cons s rest ih =>
    intro c i h
    cases i with
    | zero => simp [gsdAccum]
    | succ i =>
      have hrest : i < rest.length := by simpa using h
      have hstep := ih (Real.sqrt (s ^ 2 + c ^ 2)) i hrest
      cases i with
      | zero =>
        simp only [gsdAccum, List.getD, List.get?, Nat.succ_sub_one]
        simpa using hstep
      | succ j =>
        simp only [gsdAccum, List.getD, List.get?, Nat.succ_sub_one] at hstep ⊢
        simpa using hstep

theorem gsdAccum_nonneg : ∀ (l : List ℝ) (c : ℝ) (i : ℕ), i < l.length →
    0 ≤ (gsdAccum c l).getD i 0 := by
  intro l
  induction l with
  | nil =>
    intro c i h
    simp at h
  | cons s rest ih =>
    intro c i h
    cases i with
    | zero => simp [gsdAccum, Real.sqrt_nonneg]
    | succ i =>
      simp only [gsdAccum, List.getD, List.get?]
      exact ih (Real.sqrt (s ^ 2 + c ^ 2)) i (by simpa using h)

theorem gsdAccum_getLast : ∀ (l : List ℝ) (c : ℝ), l ≠ [] → 0 ≤ c →
    (gsdAccum c l).getLast? =
      some (Real.sqrt (c ^ 2 + (l.map (fun s => s ^ 2)).sum)) := by
  intro l
  induction l with
  | nil =>
    intro c h _
    exact absurd rfl h
  | cons s rest ih =>
    intro c _ hc
    cases rest with
    | nil =>
      simp only [gsdAccum, List.getLast?_singleton, List.map_cons, List.map_nil,
        List.sum_cons, List.sum_nil]
      rw [show s ^ 2 + c ^ 2 = c ^ 2 + (s ^ 2 + 0) by ring]
    | cons t rest2 =>
      have hrec := ih (Real.sqrt (s ^ 2 + c ^ 2)) (by simp) (Real.sqrt_nonneg _)
      have hsq : Real.sqrt (s ^ 2 + c ^ 2) ^ 2 = s ^ 2 + c ^ 2 :=
        Real.sq_sqrt (by positivity)
    -- the head of `gsdAccum` over a nonempty tail is irrelevant to `getLast?`
      simp only [gsdAccum] at hrec ⊢
      rw [List.getLast?_cons_cons]
      rw [hrec, hsq]
      rw [show s ^ 2 + c ^ 2 + ((t :: rest2).map (fun s => s ^ 2)).sum =
        c ^ 2 + (s ^ 2 + ((t :: rest2).map (fun s => s ^ 2)).sum) by ring]
      simp

theorem DoBARrun_ok (decor : Decor) (E : Estimator) (fwds revs : List (List ℚ))
    (res : List ℚ × BarOut) (h : DoBARrun decor E fwds revs = Except.ok res) :
    ∃ fss rss, fwdPass decor fwds = Except.ok fss ∧
      revPass decor fwds.length 0 revs = Except.ok rss ∧
      res = (dgsAccum 0 (barLoop E fwds.length fss rss).dg_bar,
        barLoop E fwds.length fss rss) := by
  simp only [DoBARrun] at h
  cases h1 : fwdPass decor fwds <;> simp only [h1] at h
  · exact Except.noConfusion h
  · cases h2 : revPass decor fwds.length 0 revs <;> simp only [h2] at h
    · exact Except.noConfusion h
    · injection h with h
      exact ⟨_, _, rfl, rfl, h.symm⟩

theorem fwdPass_pymbar_error (vs : List (List ℚ)) (h : ∃ v ∈ vs, v.length < 2) :
    ∃ e, fwdPass pymbarDecor vs = Except.error e := by
  induction vs with
  | nil => simp at h
  | cons v rest ih =>
    by_cases hv : v.length < 2
    · have hineff : pymbarDecor.inefficiency v = Except.error shortSeriesMsg := by
        simp [pymbarDecor, pymbarInefficiency, hv]
      refine ⟨shortSeriesMsg, ?_⟩
      simp only [fwdPass, subsampleOne, hineff]
    · have hrest : ∃ w ∈ rest, w.length < 2 := by
        obtain ⟨w, hw, hwl⟩ := h
        rcases List.mem_cons.mp hw with hw0 | hw1
        · subst hw0
          exact absurd hwl hv
        · exact ⟨w, hw1, hwl⟩
      obtain ⟨e, he⟩ := ih hrest
      refine ⟨e, ?_⟩
      simp only [fwdPass, subsampleOne_pymbar v (by omega), he]

theorem revPass_pymbar_error (m : ℕ) :
    ∀ (vs : List (List ℚ)) (k : ℕ), (∃ v ∈ vs, v.length < 2) →
      ∃ e, revPass pymbarDecor m k vs = Except.error e := by
  intro vs
  induction vs with
  | nil =>
    intro k h
    simp at h
  | cons v rest ih =>
    intro k h
    by_cases hv : v.length < 2
    · have hineff : pymbarDecor.inefficiency v = Except.error shortSeriesMsg := by
        simp [pymbarDecor, pymbarInefficiency, hv]
      refine ⟨shortSeriesMsg, ?_⟩
      simp only [revPass, hineff]
    · have hineff : pymbarDecor.inefficiency v = Except.ok 1 := by
        simp [pymbarDecor, pymbarInefficiency, hv]
      have hrest : ∃ w ∈ rest, w.length < 2 := by
        obtain ⟨w, hw, hwl⟩ := h
        rcases List.mem_cons.mp hw with hw0 | hw1
        · subst hw0
          exact absurd hwl hv
        · exact ⟨w, hw1, hwl⟩
      by_cases hk : k < m
      · obtain ⟨e, he⟩ := ih (k + 1) hrest
        refine ⟨e, ?_⟩
        simp only [revPass, hineff, if_pos hk]
        rw [show pymbarDecor.subsampleIndices v 1 = List.range v.length from rfl,
          npExtract_range v, he]
      · refine ⟨"KeyError: reverse window key missing from corr_time", ?_⟩
        simp only [revPass, hineff, if_neg hk]

/-! ### Claims about the sample parser -/

/-- Claim C7: for every input stream, `ParseFEP` collects sample lines
only after the begin-ensemble-collection marker has been seen — a line
processed with collection off and no window-summary marker leaves every
output mapping and every accumulation buffer unchanged and merely turns
collection on exactly when it carries the `#STARTING` marker (so neither
the equilibration lines nor the marker line itself contribute samples) —
and on each window-summary marker line the accumulated samples are
sealed into the output mappings at the current running window index (the
common length of the output mappings, which thereby increments), all
four accumulation buffers are reset, and collection is turned off (it
ends on only in the degenerate case that the same line also carries the
`#STARTING` marker). -/
theorem claim7_collection_gating_and_seal (s : PState) (l : List Tok) :
    (Tok.mFree ∉ l → s.parsing = false →
      stepLine s l = Except.ok { s with parsing := decide (Tok.mStarting ∈ l) }) ∧
    (Tok.mFree ∈ l →
      stepLine s l =
        Except.ok
          { dEs := s.dEs ++ [s.tempDE]
            dGs := s.dGs ++ [s.tempDG]
            elecs := s.elecs ++ [s.tempElec]
            vdws := s.vdws ++ [s.tempVdw]
            window := s.window ++ [(l.drop 6).take 4]
            tempDE := []
            tempDG := []
            tempElec := []
            tempVdw := []
            parsing := decide (Tok.mStarting ∈ l) }) :=
  ⟨stepLine_idle s l, stepLine_seal s l⟩

theorem claim7_witness :
    stepLine initState [Tok.mStarting] =
      Except.ok { initState with parsing := decide (Tok.mStarting ∈ [Tok.mStarting]) } :=
  (claim7_collection_gating_and_seal initState [Tok.mStarting]).1 (by decide) rfl

/-- Claim C8: for every collected ensemble-sample line, `ParseFEP`
appends to the buffers the work sample read from whitespace-token
column 6, the one-step free-energy sample from column 9, the
electrostatic delta `column 3 − column 2` and the van-der-Waals delta
`column 5 − column 4`; and on every window-summary marker line the
lambda-range label sealed for the window consists of tokens 6 through 9
(0-indexed) of that line. -/
theorem claim8_column_extraction :
    (∀ (s : PState) (l : List Tok) (q2 q3 q4 q5 q6 q9 : ℚ),
      Tok.mFree ∉ l → s.parsing = true →
      col l 2 = Except.ok q2 → col l 3 = Except.ok q3 →
      col l 4 = Except.ok q4 → col l 5 = Except.ok q5 →
      col l 6 = Except.ok q6 → col l 9 = Except.ok q9 →
      stepLine s l =
        Except.ok
          { s with
            tempDE := s.tempDE ++ [q6]
            tempDG := s.tempDG ++ [q9]
            tempElec := s.tempElec ++ [q3 - q2]
            tempVdw := s.tempVdw ++ [q5 - q4]
            parsing := true }) ∧
    (∀ (s : PState) (l : List Tok) (t6 t7 t8 t9 : Tok),
      Tok.mFree ∈ l →
      l.get? 6 = some t6 → l.get? 7 = some t7 →
      l.get? 8 = some t8 → l.get? 9 = some t9 →
      ∃ s', stepLine s l = Except.ok s' ∧
        s'.window = s.window ++ [[t6, t7, t8, t9]]) := by
  constructor
  · intro s l q2 q3 q4 q5 q6 q9 hF hp h2 h3 h4 h5 h6 h9
    exact stepLine_collect s l hF hp q2 q3 q4 q5 q6 q9 h2 h3 h4 h5 h6 h9
  · intro s l t6 t7 t8 t9 hF h6 h7 h8 h9
    refine ⟨_, stepLine_seal s l hF, ?_⟩
    have hslice : (l.drop 6).take 4 = [t6, t7, t8, t9] := by
      apply take_four_of_get?
      · rw [List.get?_drop]; exact h6
      · rw [List.get?_drop]; exact h7
      · rw [List.get?_drop]; exact h8
      · rw [List.get?_drop]; exact h9
    simp [hslice]

theorem claim8_witness :
    (stepLine { initState with parsing := true }
        [Tok.num 0, Tok.num 1, Tok.num 2, Tok.num 3, Tok.num 4,
         Tok.num 5, Tok.num 6, Tok.num 7, Tok.num 8, Tok.num 9] =
      Except.ok
        { initState with
          tempDE := [] ++ [(6 : ℚ)]
          tempDG := [] ++ [(9 : ℚ)]
          tempElec := [] ++ [(3 : ℚ) - 2]
          tempVdw := [] ++ [(5 : ℚ) - 4]
          parsing := true }) ∧
    (∃ s', stepLine initState
        [Tok.mFree, Tok.other "x", Tok.other "x", Tok.other "x", Tok.other "x",
         Tok.other "x", Tok.num 1, Tok.num 2, Tok.num 3, Tok.num 4] =
          Except.ok s' ∧
      s'.window = ([] : List (List Tok)) ++ [[Tok.num 1, Tok.num 2, Tok.num 3, Tok.num 4]]) :=
  ⟨claim8_column_extraction.1 _ _ 2 3 4 5 6 9 (by decide) rfl rfl rfl rfl rfl rfl rfl,
   claim8_column_extraction.2 _ _ _ _ _ _ (by decide) rfl rfl rfl rfl⟩

/-- Claim C10: for every input stream accepted by `ParseFEP`, each of
the five returned mappings has exactly one entry per window-summary
marker line of the stream.  In particular ensemble-sample lines after
the last summary marker — including every sample line of a stream with
no summary marker at all, whose mappings all come back empty — are
silently discarded: they sit in the accumulation buffers that the
function drops on return and appear in none of the five mappings. -/
theorem claim10_one_entry_per_marker (data : List (List Tok))
    (r : List (List ℚ) × List (List ℚ) × List (List ℚ) × List (List ℚ) × List (List Tok))
    (h : ParseFEP data = Except.ok r) :
    r.1.length = data.countP (fun l => decide (Tok.mFree ∈ l)) ∧
    r.2.1.length = data.countP (fun l => decide (Tok.mFree ∈ l)) ∧
    r.2.2.1.length = data.countP (fun l => decide (Tok.mFree ∈ l)) ∧
    r.2.2.2.1.length = data.countP (fun l => decide (Tok.mFree ∈ l)) ∧
    r.2.2.2.2.length = data.countP (fun l => decide (Tok.mFree ∈ l)) :=
  ParseFEP_ok_lengths data r h

theorem claim10_witness :
    (([] : List (List ℚ)).length =
      ([[Tok.mStarting],
        [Tok.num 0, Tok.num 1, Tok.num 2, Tok.num 3, Tok.num 4,
         Tok.num 5, Tok.num 6, Tok.num 7, Tok.num 8, Tok.num 9]] :
        List (List Tok)).countP (fun l => decide (Tok.mFree ∈ l))) ∧
    (([] : List (List ℚ)).length =
      ([[Tok.mStarting],
        [Tok.num 0, Tok.num 1, Tok.num 2, Tok.num 3, Tok.num 4,
         Tok.num 5, Tok.num 6, Tok.num 7, Tok.num 8, Tok.num 9]] :
        List (List Tok)).countP (fun l => decide (Tok.mFree ∈ l))) ∧
    (([] : List (List ℚ)).length =
      ([[Tok.mStarting],
        [Tok.num 0, Tok.num 1, Tok.num 2, Tok.num 3, Tok.num 4,
         Tok.num 5, Tok.num 6, Tok.num 7, Tok.num 8, Tok.num 9]] :
        List (List Tok)).countP (fun l => decide (Tok.mFree ∈ l))) ∧
    (([] : List (List ℚ)).length =
      ([[Tok.mStarting],
        [Tok.num 0, Tok.num 1, Tok.num 2, Tok.num 3, Tok.num 4,
         Tok.num 5, Tok.num 6, Tok.num 7, Tok.num 8, Tok.num 9]] :
        List (List Tok)).countP (fun l => decide (Tok.mFree ∈ l))) ∧
    (([] : List (List Tok)).length =
      ([[Tok.mStarting],
        [Tok.num 0, Tok.num 1, Tok.num 2, Tok.num 3, Tok.num 4,
         Tok.num 5, Tok.num 6, Tok.num 7, Tok.num 8, Tok.num 9]] :
        List (List Tok)).countP (fun l => decide (Tok.mFree ∈ l))) :=
  claim10_one_entry_per_marker _ ([], [], [], [], []) (by with_unfolding_all rfl)

/-! ### Claims about the pairwise estimator -/

/-- Claim C1: for every pair of forward and reverse decorrelated-series
mappings each keyed `0..N−1`, `DoBAR` invokes the bidirectional
estimator on the pairs obtained by zipping the forward keys in ascending
order with the reverse keys in descending order, so forward window `i`
is paired with reverse window `N−1−i` (in particular forward 0 with
reverse `N−1`, and forward `N−1` with reverse 0): the recorded key pairs
of the estimator invocations are exactly `(i, N−1−i)` for
`i = 0, …, N−1`. -/
theorem claim1_reversed_pairing (decor : Decor) (E : Estimator)
    (fwds revs : List (List ℚ)) (res : List ℚ × BarOut)
    (hlen : revs.length = fwds.length)
    (h : DoBARrun decor E fwds revs = Except.ok res) :
    res.2.calls.map (fun c => (c.1, c.2.1)) =
      (List.range fwds.length).map (fun i => (i, fwds.length - 1 - i)) := by
  obtain ⟨fss, rss, h1, h2, hres⟩ := DoBARrun_ok decor E fwds revs res h
  subst hres
  have hflen : fss.length = fwds.length := fwdPass_length decor fwds fss h1
  have hrlen : rss.length = revs.length := revPass_length decor fwds.length revs 0 rss h2
  rw [barLoop_calls, List.map_map, hflen, hrlen, hlen, pairKeys_self, List.map_map]
  rfl

theorem claim1_witness :
    (([3, 10], (⟨[3, 7], [15, 11], [(0, 1, [1, 2], [7, 8]), (1, 0, [3, 4], [5, 6])]⟩ : BarOut)) :
        List ℚ × BarOut).2.calls.map (fun c => (c.1, c.2.1)) =
      (List.range 2).map (fun i => (i, 2 - 1 - i)) :=
  claim1_reversed_pairing stubDecor stubE [[1, 2], [3, 4]] [[5, 6], [7, 8]]
    ([3, 10], ⟨[3, 7], [15, 11], [(0, 1, [1, 2], [7, 8]), (1, 0, [3, 4], [5, 6])]⟩)
    rfl (by with_unfolding_all rfl)

/-- Claim C2: for every sequence of per-window standard deviations, the
cumulative uncertainty sequence computed by `DoBAR`'s combination loop
(`gsdlist`) has one entry per window and satisfies
`cumulative_σ_i = sqrt(σ_i² + cumulative_σ_{i−1}²)` with
`cumulative_σ_{−1} = 0`, and is consequently non-decreasing in the
window index. -/
theorem claim2_sigma_recurrence_monotone (sds : List ℝ) :
    (gsdlist sds).length = sds.length ∧
    (∀ i, i < sds.length →
      (gsdlist sds).getD i 0 =
        Real.sqrt ((sds.getD i 0) ^ 2 +
          (if i = 0 then 0 else (gsdlist sds).getD (i - 1) 0) ^ 2)) ∧
    (∀ i, i + 1 < sds.length →
      (gsdlist sds).getD i 0 ≤ (gsdlist sds).getD (i + 1) 0) := by
  refine ⟨gsdAccum_length sds 0, fun i hi => gsdAccum_getD sds 0 i hi, fun i hi => ?_⟩
  rw [show gsdlist sds = gsdAccum 0 sds from rfl,
    gsdAccum_getD sds 0 (i + 1) hi, if_neg (Nat.succ_ne_zero i)]
  simp only [Nat.succ_sub_one]
  calc (gsdAccum 0 sds).getD i 0
      ≤ |(gsdAccum 0 sds).getD i 0| := le_abs_self _
    _ = Real.sqrt (((gsdAccum 0 sds).getD i 0) ^ 2) := (Real.sqrt_sq_eq_abs _).symm
    _ ≤ Real.sqrt ((sds.getD (i + 1) 0) ^ 2 + ((gsdAccum 0 sds).getD i 0) ^ 2) :=
        Real.sqrt_le_sqrt (by nlinarith [sq_nonneg (sds.getD (i + 1) 0)])

theorem claim2_witness :
    (gsdlist [(3 : ℝ), 4]).getD 0 0 ≤ (gsdlist [(3 : ℝ), 4]).getD 1 0 :=
  (claim2_sigma_recurrence_monotone [3, 4]).2.2 0 (by simp)

/-- Claim C3: for every forward/reverse input with `N` windows on which
`DoBAR` succeeds, the cumulative free-energy sequence it returns has
length exactly `N`, its `i`-th entry is the prefix sum
`dG_0 + … + dG_i` of the per-window values, and each per-window value
`dG_i` is the first component of the estimator's output on the series of
the `i`-th recorded invocation — accumulation is in forward-ascending
window order. -/
theorem claim3_prefix_sum_profile (decor : Decor) (E : Estimator)
    (fwds revs : List (List ℚ)) (res : List ℚ × BarOut)
    (hlen : revs.length = fwds.length)
    (h : DoBARrun decor E fwds revs = Except.ok res) :
    res.1.length = fwds.length ∧
    (∀ i, i < fwds.length →
      res.1.get? i = some ((res.2.dg_bar.take (i + 1)).sum)) ∧
    (∀ i, i < fwds.length →
      res.2.dg_bar.get? i =
        some (E ((res.2.calls.getD i (0, 0, [], [])).2.2.1)
          ((res.2.calls.getD i (0, 0, [], [])).2.2.2)).1) := by
  obtain ⟨fss, rss, h1, h2, hres⟩ := DoBARrun_ok decor E fwds revs res h
  subst hres
  have hflen : fss.length = fwds.length := fwdPass_length decor fwds fss h1
  have hrlen : rss.length = revs.length := revPass_length decor fwds.length revs 0 rss h2
  have hdglen : (barLoop E fwds.length fss rss).dg_bar.length = fwds.length :=
    (barLoop_lengths E fwds.length fss rss).1
  refine ⟨?_, fun i hi => ?_, fun i hi => ?_⟩
  · rw [dgsAccum_length, hdglen]
  · rw [dgsAccum_get _ 0 i (by rw [hdglen]; exact hi), zero_add]
  · have hbg := (barLoop_get E fwds.length fss rss hflen (by omega) i hi).1
    have hcall : (barLoop E fwds.length fss rss).calls.getD i (0, 0, [], []) =
        (i, fwds.length - 1 - i, fss.getD i [], rss.getD (fwds.length - 1 - i) []) := by
      rw [barLoop_calls, List.getD_eq_get?, List.get?_map, hflen, hrlen, hlen,
        pairKeys_get fwds.length fwds.length i (by simp [hi])]
      rfl
    rw [hbg, hcall]

theorem claim3_witness :
    (([3, 10], (⟨[3, 7], [15, 11], [(0, 1, [1, 2], [7, 8]), (1, 0, [3, 4], [5, 6])]⟩ : BarOut)) :
        List ℚ × BarOut).1.get? 1 =
      some (((([3, 10], (⟨[3, 7], [15, 11],
          [(0, 1, [1, 2], [7, 8]), (1, 0, [3, 4], [5, 6])]⟩ : BarOut)) :
        List ℚ × BarOut).2.dg_bar.take 2).sum) :=
  (claim3_prefix_sum_profile stubDecor stubE [[1, 2], [3, 4]] [[5, 6], [7, 8]]
    ([3, 10], ⟨[3, 7], [15, 11], [(0, 1, [1, 2], [7, 8]), (1, 0, [3, 4], [5, 6])]⟩)
    rfl (by with_unfolding_all rfl)).2.1 1 (by decide)

/-- Claim C4: for every sequence of per-window standard deviations, the
net uncertainty of the summary line, computed directly as
`sqrt(Σ σ_i²)` (`gsd`), equals the last entry of the cumulative
uncertainty sequence computed step-wise by the recurrence (`gsdlist`):
the two computation paths agree in exact arithmetic. -/
theorem claim4_net_sigma_equals_last (sds : List ℝ) (h : sds ≠ []) :
    (gsdlist sds).getLast? = some (gsd sds) := by
  rw [show gsdlist sds = gsdAccum 0 sds from rfl,
    gsdAccum_getLast sds 0 h le_rfl, gsd,
    show (0 : ℝ) ^ 2 + ((sds.map (fun s => s ^ 2)).sum) =
      ((sds.map (fun s => s ^ 2)).sum) by ring]

theorem claim4_witness :
    (gsdlist [(3 : ℝ), 4]).getLast? = some (gsd [(3 : ℝ), 4]) :=
  claim4_net_sigma_equals_last [3, 4] (by simp)

/-- Claim C5 counterexample: the claim says that unequal forward/reverse
window counts make the channel computation fail with an error before any
estimator invocation, never silently dropping unmatched windows.  The
code has no such check: with 2 forward windows and 1 reverse window,
`DoBAR`'s estimation pipeline returns successfully, the estimator is
invoked once (on the truncated zip), forward window 1 is silently
dropped from the pairing, and its per-window slots keep the allocated
value 0. -/
theorem claim5_counterexample :
    DoBARrun pymbarDecor stubE [[1, 2], [3, 4]] [[5, 6]] =
      Except.ok ([3, 3], ⟨[3, 0], [11, 0], [(0, 0, [1, 2], [5, 6])]⟩) := by
  with_unfolding_all rfl

/-- Claim C5 amended: when the forward count is at least the reverse
count and every series is long enough to decorrelate, `DoBAR` does not
fail on a count mismatch: it returns successfully and invokes the
estimator on exactly `min` (= reverse-count) zipped pairs, silently
dropping the unmatched forward windows.  (In the opposite direction,
reverse count exceeding forward count, the run does abort — but with an
accidental key-lookup failure in the correlation-time bookkeeping, not a
reported pairing check.) -/
theorem claim5_amended (E : Estimator) (fwds revs : List (List ℚ))
    (hn : revs.length ≤ fwds.length)
    (hf : ∀ v ∈ fwds, 2 ≤ v.length) (hr : ∀ v ∈ revs, 2 ≤ v.length) :
    ∃ res, DoBARrun pymbarDecor E fwds revs = Except.ok res ∧
      res.2.calls.length = revs.length := by
  have h1 := fwdPass_pymbar fwds hf
  have h2 := revPass_pymbar fwds.length revs 0 (by omega) hr
  refine ⟨(dgsAccum 0 (barLoop E fwds.length fwds revs).dg_bar,
    barLoop E fwds.length fwds revs), ?_, ?_⟩
  · simp only [DoBARrun, h1, h2]
  · rw [barLoop_calls, List.length_map, pairKeys_length, min_eq_right hn]

theorem claim5_witness :
    ∃ res, DoBARrun pymbarDecor stubE [[1, 2], [3, 4]] [[5, 6]] = Except.ok res ∧
      res.2.calls.length = ([[(5 : ℚ), 6]] : List (List ℚ)).length :=
  claim5_amended stubE [[1, 2], [3, 4]] [[5, 6]] (by decide) (by decide) (by decide)

/-- Claim C6: for every window whose sample series has fewer than 2
samples (in particular an empty series), the decorrelation step of
`DoBAR` signals an error — the pipeline aborts instead of proceeding to
estimation.  The decorrelation routine itself is the external
`pymbar.timeseries` collaborator, absent from the repository source, so
it is modelled from the spec (`pymbarDecor`): §4.2 makes fewer than 2
samples a signalled failure, and `DoBAR` propagates that failure. -/
theorem claim6_short_series_error (E : Estimator) (fwds revs : List (List ℚ))
    (h : (∃ v ∈ fwds, v.length < 2) ∨ (∃ v ∈ revs, v.length < 2)) :
    ∃ e, DoBARrun pymbarDecor E fwds revs = Except.error e := by
  rcases h with hfwd | hrev
  · obtain ⟨e, he⟩ := fwdPass_pymbar_error fwds hfwd
    exact ⟨e, by simp only [DoBARrun, he]⟩
  · cases h1 : fwdPass pymbarDecor fwds
    · rename_i e0
      exact ⟨e0, by simp only [DoBARrun, h1]⟩
    · obtain ⟨e, he⟩ := revPass_pymbar_error fwds.length revs 0 hrev
      exact ⟨e, by simp only [DoBARrun, h1, he]⟩

theorem claim6_witness :
    ∃ e, DoBARrun pymbarDecor stubE [[1]] [[5, 6]] = Except.error e :=
  claim6_short_series_error stubE [[1]] [[5, 6]] (Or.inl ⟨[1], by simp, by simp⟩)

/-- Claim C9: for every window pair, `DoBAR` hands the reverse
decorrelated sample series to the bidirectional estimator exactly as the
subsampling produced it — the reverse argument of the `i`-th estimator
invocation is literally the subsampled series of reverse window
`N−1−i`, with no sign negation or other transformation applied. -/
theorem claim9_reverse_passed_as_is (decor : Decor) (E : Estimator)
    (fwds revs : List (List ℚ)) (res : List ℚ × BarOut)
    (hlen : revs.length = fwds.length)
    (h : DoBARrun decor E fwds revs = Except.ok res)
    (i : ℕ) (hi : i < fwds.length) :
    ∃ rv rsub, revs.get? (fwds.length - 1 - i) = some rv ∧
      subsampleOne decor rv = Except.ok rsub ∧
      (res.2.calls.getD i (0, 0, [], [])).2.2.2 = rsub := by
  obtain ⟨fss, rss, h1, h2, hres⟩ := DoBARrun_ok decor E fwds revs res h
  subst hres
  have hflen : fss.length = fwds.length := fwdPass_length decor fwds fss h1
  have hrlen : rss.length = revs.length := revPass_length decor fwds.length revs 0 rss h2
  have hidx : fwds.length - 1 - i < revs.length := by omega
  have hrv : revs.get? (fwds.length - 1 - i) =
      some (revs.get ⟨fwds.length - 1 - i, hidx⟩) := List.get?_eq_get hidx
  obtain ⟨rsub, hsub, hget⟩ :=
    revPass_get decor fwds.length revs 0 rss h2 (fwds.length - 1 - i) _ hrv
  refine ⟨revs.get ⟨fwds.length - 1 - i, hidx⟩, rsub, hrv, hsub, ?_⟩
  have hcall : (barLoop E fwds.length fss rss).calls.getD i (0, 0, [], []) =
      (i, fwds.length - 1 - i, fss.getD i [], rss.getD (fwds.length - 1 - i) []) := by
    rw [barLoop_calls, List.getD_eq_get?, List.get?_map, hflen, hrlen, hlen,
      pairKeys_get fwds.length fwds.length i (by simp [hi])]
    rfl
  rw [hcall]
  show rss.getD (fwds.length - 1 - i) [] = rsub
  rw [List.getD_eq_get?, hget]
  rfl

theorem claim9_witness :
    ∃ rv rsub, ([[(5 : ℚ), 6], [7, 8]] : List (List ℚ)).get? (2 - 1 - 0) = some rv ∧
      subsampleOne stubDecor rv = Except.ok rsub ∧
      ((([3, 10], (⟨[3, 7], [15, 11],
          [(0, 1, [1, 2], [7, 8]), (1, 0, [3, 4], [5, 6])]⟩ : BarOut)) :
        List ℚ × BarOut).2.calls.getD 0 (0, 0, [], [])).2.2.2 = rsub :=
  claim9_reverse_passed_as_is stubDecor stubE [[1, 2], [3, 4]] [[5, 6], [7, 8]]
    ([3, 10], ⟨[3, 7], [15, 11], [(0, 1, [1, 2], [7, 8]), (1, 0, [3, 4], [5, 6])]⟩)
    rfl (by with_unfolding_all rfl) 0 (by decide)

end BarFep
